import Mathlib

/-!
Shallow embedding of `src/alloc_check.c` (didas72/alloc_check), together with
theorems settling the specification claims about it.

Addresses are modelled as natural numbers, with `0` playing the role of the
null pointer.  The underlying platform allocator is an external oracle: each
shim takes the raw result of the wrapped primitive as an explicit argument,
so a trace of shim applications with arbitrary oracle answers covers every
behaviour of the real allocator.
-/

namespace AllocCheck

/-- Machine addresses; `0` is the null pointer. -/
abbrev Addr := Nat

/-- `enum ENTRY_TYPE` from alloc_check.c (ENTRY_NVAL, ENTRY_MALLOC,
ENTRY_CALLOC, ENTRY_REALLOC, ENTRY_FREE). -/
inductive EntryType where
  | nval
  | mallocE
  | callocE
  | reallocE
  | freeE
deriving DecidableEq, Repr

/-- `struct memory_entry`: one recorded allocation event. -/
structure memory_entry where
  id : Nat
  type : EntryType
  old_ptr : Addr
  new_ptr : Addr
  size : Nat
  file_name : String
  line : Int
deriving DecidableEq, Repr

/-- `struct checker_status`: the ledger.  `voidptr_array` fields become
lists; `pointers` is the index-to-pointer matching and `entry_lookup` the
per-id event histories (bucket 0 is the null/unresolved bucket). -/
structure checker_status where
  id_counter : Nat
  allocs : List memory_entry
  reallocs : List memory_entry
  frees : List memory_entry
  pointers : List Addr
  entry_lookup : List (List memory_entry)
deriving DecidableEq, Repr

/-- The ledger state right after `init_checker` ran on an absent ledger:
empty chronological lists, the special null-pointer slot 0, and
`id_counter = 1`. -/
def init_state : checker_status :=
  { id_counter := 1
    allocs := []
    reallocs := []
    frees := []
    pointers := [0]
    entry_lookup := [[]] }

/-- Loop body of `find_id`: scan `pointers` from index `i` upward and
return the first index holding `ptr`; return 0 when the scan falls off the
end (both NULL and unlisted resolve to 0). -/
def find_id_aux : List Addr → Addr → Nat → Nat
  | [], _, _ => 0
  | q :: rest, ptr, i => if q = ptr then i else find_id_aux rest ptr (i + 1)

/-- `find_id(ptr)`: linear scan of the `pointers` array. -/
def find_id (s : checker_status) (ptr : Addr) : Nat :=
  find_id_aux s.pointers ptr 0

/-- Number of loop iterations (pointer comparisons) `find_id` performs on
the given state: the cost model for the lookup-complexity claim. -/
def find_id_steps_aux : List Addr → Addr → Nat
  | [], _ => 0
  | q :: rest, ptr => if q = ptr then 1 else 1 + find_id_steps_aux rest ptr

/-- Cost of `find_id s ptr` in pointer comparisons. -/
def find_id_steps (s : checker_status) (ptr : Addr) : Nat :=
  find_id_steps_aux s.pointers ptr

/-- `append_voidptr_array(status.entry_lookup->data[id], entry)`: append an
entry to bucket `id` of the history table. -/
def appendAt (l : List (List memory_entry)) (i : Nat) (e : memory_entry) :
    List (List memory_entry) :=
  l.set i ((l.getD i []) ++ [e])

/-- `create_memory_entry` (the copy of `file_name` is by-value in Lean). -/
def create_memory_entry (type : EntryType) (id : Nat) (old_ptr new_ptr : Addr)
    (size : Nat) (file_name : String) (line : Int) : memory_entry :=
  { id := id, type := type, old_ptr := old_ptr, new_ptr := new_ptr,
    size := size, file_name := file_name, line := line }

/-- `checked_malloc(size, file_name, line)` on an initialized ledger.
`ptr` is the oracle answer of the wrapped `malloc(size)` call. -/
def checked_malloc (s : checker_status) (ptr : Addr) (size : Nat)
    (file_name : String) (line : Int) : checker_status :=
  if ptr = 0 then
    let entry := create_memory_entry .mallocE 0 0 ptr size file_name line
    { s with allocs := s.allocs ++ [entry]
             entry_lookup := appendAt s.entry_lookup 0 entry }
  else
    let id := s.id_counter
    let entry := create_memory_entry .mallocE id 0 ptr size file_name line
    { s with id_counter := id + 1
             pointers := s.pointers ++ [ptr]
             allocs := s.allocs ++ [entry]
             entry_lookup := appendAt (s.entry_lookup ++ [[]]) id entry }

/-- `checked_calloc(nitems, size, file_name, line)` on an initialized
ledger.  The source delegates to `malloc(size)` — not `calloc` — so the
oracle answer `ptr` is the result of `malloc(size)`.  On failure the entry
records `size`; on success it records `nitems * size`. -/
def checked_calloc (s : checker_status) (ptr : Addr) (nitems size : Nat)
    (file_name : String) (line : Int) : checker_status :=
  if ptr = 0 then
    let entry := create_memory_entry .callocE 0 0 ptr size file_name line
    { s with allocs := s.allocs ++ [entry]
             entry_lookup := appendAt s.entry_lookup 0 entry }
  else
    let id := s.id_counter
    let entry := create_memory_entry .callocE id 0 ptr (nitems * size) file_name line
    { s with id_counter := id + 1
             pointers := s.pointers ++ [ptr]
             allocs := s.allocs ++ [entry]
             entry_lookup := appendAt (s.entry_lookup ++ [[]]) id entry }

/-- `checked_realloc(ptr, size, file_name, line)` on an initialized ledger.
`new_ptr` is the oracle answer of the wrapped `realloc(ptr, size)` call.
The pointer slot is remapped only when the id is real and the call
succeeded; on failure the mapping is left untouched. -/
def checked_realloc (s : checker_status) (new_ptr : Addr) (ptr : Addr)
    (size : Nat) (file_name : String) (line : Int) : checker_status :=
  let id := find_id s ptr
  let entry := create_memory_entry .reallocE id ptr new_ptr size file_name line
  let pointers1 := if id ≠ 0 ∧ new_ptr ≠ 0 then s.pointers.set id new_ptr else s.pointers
  { s with reallocs := s.reallocs ++ [entry]
           pointers := pointers1
           entry_lookup := appendAt s.entry_lookup id entry }

/-- `checked_free(ptr, file_name, line)` on an initialized ledger (the
trailing `trim_voidptr_array` only shrinks capacity and has no observable
effect in this model). -/
def checked_free (s : checker_status) (ptr : Addr)
    (file_name : String) (line : Int) : checker_status :=
  let id := find_id s ptr
  let entry := create_memory_entry .freeE id ptr 0 0 file_name line
  { s with frees := s.frees ++ [entry]
           entry_lookup := appendAt s.entry_lookup id entry }

/-! ## Report passes -/

/-- Per-block inner loop of `find_lost_blocks`: walk the history keeping
`last_size` updated at every entry, stopping with `freed = 1` at the first
FREE entry.  Returns `(freed, last_size)`. -/
def lost_scan_aux : List memory_entry → Nat → Bool × Nat
  | [], acc => (false, acc)
  | e :: rest, _ =>
      if e.type = .freeE then (true, e.size) else lost_scan_aux rest e.size

/-- `lost_scan block = (freed, last_size)` with `last_size` starting at 0. -/
def lost_scan (block : List memory_entry) : Bool × Nat := lost_scan_aux block 0

/-- `find_lost_blocks`: skip id 0, list the ids whose history the scan left
unfreed, and sum their `last_size` values.  Returns
`(block_array, block_count, total_size)`. -/
def find_lost_blocks (s : checker_status) :
    List Nat × Nat × Nat :=
  let idxs := (List.range s.entry_lookup.length).drop 1
  let blockv := idxs.filter (fun i => !(lost_scan (s.entry_lookup.getD i [])).1)
  let size := (idxs.map (fun i =>
      let r := lost_scan (s.entry_lookup.getD i [])
      if r.1 then 0 else r.2)).sum
  (blockv, blockv.length, size)

/-- How the per-block loop of `find_zero_re_allocs` classifies a history:
the first entry that is a zero-size MALLOC/CALLOC puts the block in the
zero-alloc list, the first that is a zero-size REALLOC in the zero-realloc
list, and the loop breaks either way; a history with neither is skipped. -/
inductive ZeroKind where
  | neither
  | zalloc
  | zrealloc
deriving DecidableEq, Repr

/-- Per-block loop of `find_zero_re_allocs`, with the source's `if` /
`else if` order and `break`s. -/
def zero_scan : List memory_entry → ZeroKind
  | [] => .neither
  | e :: rest =>
      if (e.type = .mallocE ∨ e.type = .callocE) ∧ e.size = 0 then .zalloc
      else if e.type = .reallocE ∧ e.size = 0 then .zrealloc
      else zero_scan rest

/-- `find_zero_re_allocs`: every bucket (including bucket 0) contributes to
at most one of the two lists, decided by `zero_scan`.  Returns
`(alloc_array, realloc_array, zero_alloc_count, zero_realloc_count)`. -/
def find_zero_re_allocs (s : checker_status) :
    List Nat × List Nat × Nat × Nat :=
  let idxs := List.range s.entry_lookup.length
  let allocv := idxs.filter (fun i => zero_scan (s.entry_lookup.getD i []) = .zalloc)
  let reallocv := idxs.filter (fun i => zero_scan (s.entry_lookup.getD i []) = .zrealloc)
  (allocv, reallocv, allocv.length, reallocv.length)

/-- `find_failed_re_allocs`: `failed_allocs` counts the MALLOC/CALLOC
entries of bucket 0 with non-zero size; `failed_reallocs` counts, over the
buckets with id ≥ 1, every REALLOC entry with non-zero size (the source
never inspects `new_ptr` here); the returned vector lists each id ≥ 1
owning at least one such entry.  Returns
`(failed_reallocs_v, failed_allocs, failed_reallocs)`. -/
def find_failed_re_allocs (s : checker_status) :
    List Nat × Nat × Nat :=
  let null_block := s.entry_lookup.getD 0 []
  let allocc := (null_block.filter (fun e =>
      (e.type = .mallocE ∨ e.type = .callocE) ∧ e.size ≠ 0)).length
  let idxs := (List.range s.entry_lookup.length).drop 1
  let reallocc := (idxs.map (fun i =>
      ((s.entry_lookup.getD i []).filter (fun e =>
        e.type = .reallocE ∧ e.size ≠ 0)).length)).sum
  let reallocv := idxs.filter (fun i =>
      ((s.entry_lookup.getD i []).filter (fun e =>
        e.type = .reallocE ∧ e.size ≠ 0)).length ≠ 0)
  (reallocv, allocc, reallocc)

/-- The "Total NULL reallocs/frees" metrics of `report_alloc_checks`: the
source initializes both counters to 0 and the pass that would fill them is
a TODO, so the report always shows `(0, 0)`. -/
def report_null_counts (_s : checker_status) : Nat × Nat := (0, 0)

/-! ## Lifecycle -/

/-- `init_checker`: lazy idempotent initialization — an absent ledger
becomes `init_state`, a present one is kept as is. -/
def init_checker : Option checker_status → checker_status
  | none => init_state
  | some s => s

/-- `cleanup_alloc_checks` at the option level.  With a present ledger it
destroys everything and resets every field to NULL (state `none`).  With an
absent ledger the very first loop header reads `status.allocs->count`
through the null `allocs` pointer: no lazy initialization happens in this
entry point, so this is modelled as an error. -/
def cleanup_alloc_checks : Option checker_status → Except Unit (Option checker_status)
  | none => .error ()
  | some _ => .ok none

/-- `checked_malloc` at the public interface: lazily initialize, then run
the shim.  Never fails. -/
def checked_malloc_api (os : Option checker_status) (ptr : Addr) (size : Nat)
    (f : String) (l : Int) : Option checker_status :=
  some (checked_malloc (init_checker os) ptr size f l)

/-- `checked_calloc` at the public interface. -/
def checked_calloc_api (os : Option checker_status) (ptr : Addr) (nitems size : Nat)
    (f : String) (l : Int) : Option checker_status :=
  some (checked_calloc (init_checker os) ptr nitems size f l)

/-- `checked_realloc` at the public interface. -/
def checked_realloc_api (os : Option checker_status) (new_ptr ptr : Addr) (size : Nat)
    (f : String) (l : Int) : Option checker_status :=
  some (checked_realloc (init_checker os) new_ptr ptr size f l)

/-- `checked_free` at the public interface. -/
def checked_free_api (os : Option checker_status) (ptr : Addr)
    (f : String) (l : Int) : Option checker_status :=
  some (checked_free (init_checker os) ptr f l)

/-- `report_alloc_checks` at the public interface: lazily initialize, then
read the ledger (its only effect is text output, so the state it returns is
the initialized ledger). -/
def report_alloc_checks_api (os : Option checker_status) : Option checker_status :=
  some (init_checker os)

/-! ## The platform allocator as an external collaborator -/

/-- A call to one of the real platform allocation primitives. -/
inductive PrimCall where
  | mallocP (size : Nat)
  | callocP (nitems size : Nat)
  | reallocP (ptr : Addr) (size : Nat)
  | freeP (ptr : Addr)
deriving DecidableEq, Repr

/-- Bytes the platform guarantees usable on success of a primitive call. -/
def prim_bytes : PrimCall → Nat
  | .mallocP size => size
  | .callocP nitems size => nitems * size
  | .reallocP _ size => size
  | .freeP _ => 0

/-- Whether the primitive zero-initializes the memory it returns. -/
def prim_zeroed : PrimCall → Bool
  | .callocP _ _ => true
  | _ => false

/-- The primitive call `checked_calloc(nitems, size, ...)` actually issues:
line 313 of alloc_check.c reads `void *ptr = malloc(size);`. -/
def checked_calloc_delegation (_nitems size : Nat) : PrimCall :=
  .mallocP size

/-- Modelled from the spec: `zero_allocate(count, size, call_site)` is to
"delegate to the real allocation primitive", the zero-initialize-allocate
one, with that count and element size. -/
def spec_zero_allocate_delegation (count size : Nat) : PrimCall :=
  .callocP count size

/-- Ledger states reachable through the public interception shims, with the
platform allocator free to answer anything. -/
inductive Reachable : checker_status → Prop where
  | init : Reachable init_state
  | mallocR {s} (ptr size : Addr) (f : String) (l : Int) :
      Reachable s → Reachable (checked_malloc s ptr size f l)
  | callocR {s} (ptr nitems size : Nat) (f : String) (l : Int) :
      Reachable s → Reachable (checked_calloc s ptr nitems size f l)
  | reallocR {s} (new_ptr ptr : Addr) (size : Nat) (f : String) (l : Int) :
      Reachable s → Reachable (checked_realloc s new_ptr ptr size f l)
  | freeR {s} (ptr : Addr) (f : String) (l : Int) :
      Reachable s → Reachable (checked_free s ptr f l)

/-! ## Structural invariant of the ledger -/

/-- Every event stored in a history bucket carries an id below the
counter. -/
def EventsBound (s : checker_status) : Prop :=
  ∀ b ∈ s.entry_lookup, ∀ e ∈ b, e.id < s.id_counter

/-- Every event stored in the chronological lists carries an id below the
counter. -/
def ChronBound (s : checker_status) : Prop :=
  ∀ e ∈ s.allocs ++ s.reallocs ++ s.frees, e.id < s.id_counter

/-- The ledger's structural invariant: the pointer table and the history
table are dense over `0 .. id_counter`, slot 0 holds the null pointer, and
every stored event's id is in range. -/
structure Inv (s : checker_status) : Prop where
  pc : s.pointers.length = s.id_counter
  lc : s.entry_lookup.length = s.id_counter
  pos : 1 ≤ s.id_counter
  slot0 : ∃ rest, s.pointers = 0 :: rest
  events : EventsBound s
  chron : ChronBound s

/-! ## Spec-side predicates (written from the spec's words, for
comparison with the source passes) -/

/-- Modelled from the spec: a history contains a Release event. -/
def has_release (block : List memory_entry) : Bool :=
  block.any (fun e => e.type = .freeE)

/-- Size recorded by the last entry of a history (0 for an empty one). -/
def last_entry_size (block : List memory_entry) : Nat :=
  ((block.getLast?).map (fun e => e.size)).getD 0

/-- Modelled from the spec: the size of the last *successful*
size-changing event of a history — the last MALLOC/CALLOC/REALLOC entry
whose `new_ptr` is non-null (0 if there is none). -/
def last_successful_size (block : List memory_entry) : Nat :=
  (((block.filter (fun e =>
      (e.type = .mallocE ∨ e.type = .callocE ∨ e.type = .reallocE) ∧
        e.new_ptr ≠ 0)).getLast?).map (fun e => e.size)).getD 0

/-- The first zero-size allocate/resize event of a history, if any. -/
def first_zero_op (block : List memory_entry) : Option memory_entry :=
  block.find? (fun e =>
    (e.type = .mallocE ∨ e.type = .callocE ∨ e.type = .reallocE) ∧ e.size = 0)

/-- Modelled from the spec: how a history should be classified by a
zero-size pass that looks at the first zero-size allocate/resize event of
the block (the per-block behaviour the source's loop-with-break
implements). -/
def spec_zero_class (block : List memory_entry) : ZeroKind :=
  match first_zero_op block with
  | none => ZeroKind.neither
  | some e => if e.type = .reallocE then ZeroKind.zrealloc else ZeroKind.zalloc

/-- Modelled from the spec: the lookup must run in O(1)/O(log n) in the
number of tracked addresses — there is one constant bounding the cost of
every lookup on every reachable ledger by that constant times
`log₂ (number of pointer slots) + 1`. -/
def lookup_cost_bounded : Prop :=
  ∃ c : Nat, ∀ s : checker_status, Reachable s → ∀ p : Addr,
    find_id_steps s p ≤ c * (Nat.log 2 s.pointers.length + 1)

/-- A trace of `n` successful allocations at the distinct addresses
`1, …, n`, a behaviour the platform allocator is free to exhibit. -/
def mallocTrace : Nat → checker_status
  | 0 => init_state
  | n + 1 => checked_malloc (mallocTrace n) (n + 1) 1 "trace" 1

/-! ## Concrete ledgers used as counterexamples and witnesses -/

/-- A successful 8-byte allocation at address 1 followed by a successful
resize to 16 bytes moving the block to address 2. -/
def state_C1 : checker_status :=
  checked_realloc (checked_malloc init_state 1 8 "a" 1) 2 1 16 "a" 2

/-- A `resize(null, 20)` that fails (the platform returns null): a failed
Resize event recorded in bucket 0. -/
def state_C1b : checker_status :=
  checked_realloc init_state 0 0 20 "b" 1

/-- A `release(null)` followed by a `resize(null, 20)` answered with
address 5. -/
def state_C2 : checker_status :=
  checked_realloc (checked_free init_state 0 "f" 1) 5 0 20 "f" 2

/-- A successful 8-byte allocation at address 1 followed by a failed
resize to 100 bytes; the block is never released. -/
def state_C4 : checker_status :=
  checked_realloc (checked_malloc init_state 1 8 "a" 1) 0 1 100 "a" 2

/-- Two zero-size allocations both answered with null. -/
def state_C5 : checker_status :=
  checked_malloc (checked_malloc init_state 0 0 "f" 1) 0 0 "f" 2

/-- A single successful 4-byte allocation at address 1. -/
def state_w : checker_status := checked_malloc init_state 1 4 "w" 1

/-! ## Helper lemmas -/

theorem length_appendAt (l : List (List memory_entry)) (i : Nat) (e : memory_entry) :
    (appendAt l i e).length = l.length :=
  List.length_set l i _

theorem mem_appendAt {l : List (List memory_entry)} {i : Nat} {e : memory_entry}
    {b : List memory_entry} (hb : b ∈ appendAt l i e) :
    b ∈ l ∨ b = l.getD i [] ++ [e] :=
  List.mem_or_eq_of_mem_set hb

theorem getD_mem {l : List (List memory_entry)} {i : Nat} (h : i < l.length) :
    l.getD i [] ∈ l := by
  rw [List.getD_eq_getElem?_getD, List.getElem?_eq_getElem h]
  exact List.getElem_mem h

theorem getD_appendAt_self {l : List (List memory_entry)} {i : Nat}
    (e : memory_entry) (h : i < l.length) :
    (appendAt l i e).getD i [] = l.getD i [] ++ [e] := by
  rw [appendAt, List.getD_eq_getElem?_getD, List.getElem?_set_self]
  · simp
  · exact h

theorem getD_appendAt_ne {l : List (List memory_entry)} {i : Nat}
    (e : memory_entry) (j : Nat) (h : i ≠ j) :
    (appendAt l i e).getD j [] = l.getD j [] := by
  rw [appendAt, List.getD_eq_getElem?_getD, List.getElem?_set_ne h,
    List.getD_eq_getElem?_getD]

theorem find_id_aux_zero_or_lt (p : Addr) :
    ∀ (l : List Addr) (i : Nat),
      find_id_aux l p i = 0 ∨ find_id_aux l p i < i + l.length := by
  intro l
  induction l with
  | nil => intro i; exact Or.inl rfl
  | cons q rest ih =>
      intro i
      by_cases hq : q = p
      · right
        rw [find_id_aux, if_pos hq]
        simp
      · rcases ih (i + 1) with h | h
        · left; rw [find_id_aux, if_neg hq]; exact h
        · right; rw [find_id_aux, if_neg hq]; simp only [List.length_cons]; omega

theorem find_id_lt {s : checker_status} (hpos : 1 ≤ s.pointers.length) (p : Addr) :
    find_id s p < s.pointers.length := by
  rcases find_id_aux_zero_or_lt p s.pointers 0 with h | h
  · rw [find_id, h]; omega
  · rw [find_id]; omega

theorem find_id_null {s : checker_status} (h : ∃ rest, s.pointers = 0 :: rest) :
    find_id s 0 = 0 := by
  obtain ⟨rest, hr⟩ := h
  rw [find_id, hr, find_id_aux, if_pos rfl]

theorem find_id_aux_not_mem {p : Addr} :
    ∀ {l : List Addr}, p ∉ l → ∀ i, find_id_aux l p i = 0 := by
  intro l
  induction l with
  | nil => intro _ i; rfl
  | cons q rest ih =>
      intro h i
      have hq : q ≠ p := fun hqp => h (hqp ▸ List.mem_cons_self q rest)
      rw [find_id_aux, if_neg hq]
      exact ih (fun hm => h (List.mem_cons_of_mem q hm)) (i + 1)

theorem find_id_not_mem {s : checker_status} {p : Addr} (h : p ∉ s.pointers) :
    find_id s p = 0 :=
  find_id_aux_not_mem h 0

/-! ## Invariant preservation -/

theorem inv_init : Inv init_state where
  pc := rfl
  lc := rfl
  pos := le_refl 1
  slot0 := ⟨[], rfl⟩
  events := by
    intro b hb e he
    simp only [init_state, List.mem_singleton] at hb
    subst hb
    simp at he
  chron := by
    intro e he
    simp [init_state] at he

theorem inv_malloc {s : checker_status} (h : Inv s) (ptr : Addr) (size : Nat)
    (f : String) (l : Int) : Inv (checked_malloc s ptr size f l) := by
  have hlen0 : 0 < s.entry_lookup.length := by rw [h.lc]; exact h.pos
  by_cases hp : ptr = 0
  · subst hp
    rw [checked_malloc, if_pos rfl]
    refine ⟨h.pc, ?_, h.pos, h.slot0, ?_, ?_⟩
    · rw [length_appendAt]; exact h.lc
    · intro b hb e he
      rcases mem_appendAt hb with hb' | rfl
      · exact h.events b hb' e he
      · rcases List.mem_append.1 he with he' | he'
        · exact h.events _ (getD_mem hlen0) e he'
        · simp only [List.mem_singleton] at he'
          subst he'
          exact h.pos
    · intro e he
      simp only [List.mem_append, List.mem_singleton] at he
      rcases he with ((he | he) | he) | he
      · exact h.chron e (by simp [he])
      · subst he; exact h.pos
      · exact h.chron e (by simp [he])
      · exact h.chron e (by simp [he])
  · rw [checked_malloc, if_neg hp]
    have hcnt : s.entry_lookup.length = s.id_counter := h.lc
    refine ⟨?_, ?_, ?_, ?_, ?_, ?_⟩
    · simp only [List.length_append, List.length_singleton]
      rw [h.pc]
    · rw [length_appendAt]
      simp only [List.length_append, List.length_singleton]
      rw [h.lc]
    · show 1 ≤ s.id_counter + 1
      omega
    · obtain ⟨rest, hr⟩ := h.slot0
      exact ⟨rest ++ [ptr], by rw [hr]; rfl⟩
    · intro b hb e he
      rcases mem_appendAt hb with hb' | rfl
      · rcases List.mem_append.1 hb' with hb'' | hb''
        · exact Nat.lt_succ_of_lt (h.events b hb'' e he)
        · simp only [List.mem_singleton] at hb''
          subst hb''
          simp at he
      · have hgd : (s.entry_lookup ++ [[]]).getD s.id_counter [] = ([] : List memory_entry) := by
          rw [List.getD_eq_getElem?_getD, ← hcnt]
          simp
        rw [hgd] at he
        simp only [List.nil_append, List.mem_singleton] at he
        subst he
        exact Nat.lt_succ_self _
    · intro e he
      simp only [List.mem_append, List.mem_singleton] at he
      rcases he with ((he | he) | he) | he
      · exact Nat.lt_succ_of_lt (h.chron e (by simp [he]))
      · subst he; exact Nat.lt_succ_self _
      · exact Nat.lt_succ_of_lt (h.chron e (by simp [he]))
      · exact Nat.lt_succ_of_lt (h.chron e (by simp [he]))

theorem inv_calloc {s : checker_status} (h : Inv s) (ptr : Addr) (nitems size : Nat)
    (f : String) (l : Int) : Inv (checked_calloc s ptr nitems size f l) := by
  have hlen0 : 0 < s.entry_lookup.length := by rw [h.lc]; exact h.pos
  by_cases hp : ptr = 0
  · subst hp
    rw [checked_calloc, if_pos rfl]
    refine ⟨h.pc, ?_, h.pos, h.slot0, ?_, ?_⟩
    · rw [length_appendAt]; exact h.lc
    · intro b hb e he
      rcases mem_appendAt hb with hb' | rfl
      · exact h.events b hb' e he
      · rcases List.mem_append.1 he with he' | he'
        · exact h.events _ (getD_mem hlen0) e he'
        · simp only [List.mem_singleton] at he'
          subst he'
          exact h.pos
    · intro e he
      simp only [List.mem_append, List.mem_singleton] at he
      rcases he with ((he | he) | he) | he
      · exact h.chron e (by simp [he])
      · subst he; exact h.pos
      · exact h.chron e (by simp [he])
      · exact h.chron e (by simp [he])
  · rw [checked_calloc, if_neg hp]
    have hcnt : s.entry_lookup.length = s.id_counter := h.lc
    refine ⟨?_, ?_, ?_, ?_, ?_, ?_⟩
    · simp only [List.length_append, List.length_singleton]
      rw [h.pc]
    · rw [length_appendAt]
      simp only [List.length_append, List.length_singleton]
      rw [h.lc]
    · show 1 ≤ s.id_counter + 1
      omega
    · obtain ⟨rest, hr⟩ := h.slot0
      exact ⟨rest ++ [ptr], by rw [hr]; rfl⟩
    · intro b hb e he
      rcases mem_appendAt hb with hb' | rfl
      · rcases List.mem_append.1 hb' with hb'' | hb''
        · exact Nat.lt_succ_of_lt (h.events b hb'' e he)
        · simp only [List.mem_singleton] at hb''
          subst hb''
          simp at he
      · have hgd : (s.entry_lookup ++ [[]]).getD s.id_counter [] = ([] : List memory_entry) := by
          rw [List.getD_eq_getElem?_getD, ← hcnt]
          simp
        rw [hgd] at he
        simp only [List.nil_append, List.mem_singleton] at he
        subst he
        exact Nat.lt_succ_self _
    · intro e he
      simp only [List.mem_append, List.mem_singleton] at he
      rcases he with ((he | he) | he) | he
      · exact Nat.lt_succ_of_lt (h.chron e (by simp [he]))
      · subst he; exact Nat.lt_succ_self _
      · exact Nat.lt_succ_of_lt (h.chron e (by simp [he]))
      · exact Nat.lt_succ_of_lt (h.chron e (by simp [he]))

theorem inv_realloc {s : checker_status} (h : Inv s) (new_ptr ptr : Addr) (size : Nat)
    (f : String) (l : Int) : Inv (checked_realloc s new_ptr ptr size f l) := by
  have hplen : 1 ≤ s.pointers.length := by rw [h.pc]; exact h.pos
  have hid : find_id s ptr < s.id_counter := by
    have hlt := find_id_lt hplen ptr
    rw [h.pc] at hlt
    exact hlt
  have hlk : find_id s ptr < s.entry_lookup.length := by rw [h.lc]; exact hid
  simp only [checked_realloc]
  refine ⟨?_, ?_, h.pos, ?_, ?_, ?_⟩
  · split
    · rw [List.length_set]; exact h.pc
    · exact h.pc
  · rw [length_appendAt]; exact h.lc
  · obtain ⟨rest, hr⟩ := h.slot0
    split
    · next hcond =>
        obtain ⟨j, hj⟩ : ∃ j, find_id s ptr = j + 1 :=
          ⟨find_id s ptr - 1, by omega⟩
        refine ⟨rest.set j new_ptr, ?_⟩
        rw [hr, hj, List.set_cons_succ]
    · exact ⟨rest, hr⟩
  · intro b hb e he
    rcases mem_appendAt hb with hb' | rfl
    · exact h.events b hb' e he
    · rcases List.mem_append.1 he with he' | he'
      · exact h.events _ (getD_mem hlk) e he'
      · simp only [List.mem_singleton] at he'
        subst he'
        exact hid
  · intro e he
    simp only [List.mem_append, List.mem_singleton] at he
    rcases he with (he | he | he) | he
    · exact h.chron e (by simp [he])
    · exact h.chron e (by simp [he])
    · subst he; exact hid
    · exact h.chron e (by simp [he])

theorem inv_free {s : checker_status} (h : Inv s) (ptr : Addr)
    (f : String) (l : Int) : Inv (checked_free s ptr f l) := by
  have hplen : 1 ≤ s.pointers.length := by rw [h.pc]; exact h.pos
  have hid : find_id s ptr < s.id_counter := by
    have hlt := find_id_lt hplen ptr
    rw [h.pc] at hlt
    exact hlt
  have hlk : find_id s ptr < s.entry_lookup.length := by rw [h.lc]; exact hid
  simp only [checked_free]
  refine ⟨h.pc, ?_, h.pos, h.slot0, ?_, ?_⟩
  · rw [length_appendAt]; exact h.lc
  · intro b hb e he
    rcases mem_appendAt hb with hb' | rfl
    · exact h.events b hb' e he
    · rcases List.mem_append.1 he with he' | he'
      · exact h.events _ (getD_mem hlk) e he'
      · simp only [List.mem_singleton] at he'
        subst he'
        exact hid
  · intro e he
    simp only [List.mem_append, List.mem_singleton] at he
    rcases he with (he | he) | he | he
    · exact h.chron e (by simp [he])
    · exact h.chron e (by simp [he])
    · exact h.chron e (by simp [he])
    · subst he; exact hid

theorem lost_scan_aux_fst (b : List memory_entry) :
    ∀ acc, (lost_scan_aux b acc).1 = has_release b := by
  induction b with
  | nil => intro acc; simp [lost_scan_aux, has_release]
  | cons e rest ih =>
      intro acc
      by_cases he : e.type = .freeE
      · simp [lost_scan_aux, has_release, he]
      · simp [lost_scan_aux, has_release, he, ih e.size]

theorem lost_scan_aux_snd :
    ∀ (b : List memory_entry), has_release b = false →
      ∀ acc, (lost_scan_aux b acc).2 = ((b.getLast?).map (fun e => e.size)).getD acc := by
  intro b
  induction b with
  | nil => intro _ acc; simp [lost_scan_aux]
  | cons e rest ih =>
      intro h acc
      have he : ¬ e.type = .freeE := by
        intro hh
        simp [has_release, hh] at h
      have hrest : has_release rest = false := by
        simp only [has_release, List.any_cons, Bool.or_eq_false_iff] at h
        exact h.2
      cases rest with
      | nil => simp [lost_scan_aux, he]
      | cons e2 rest2 =>
          rw [lost_scan_aux, if_neg he, ih hrest e.size, List.getLast?_cons_cons]
          cases hgl : (e2 :: rest2).getLast? with
          | none =>
              rw [List.getLast?_eq_none_iff] at hgl
              exact absurd hgl (by simp)
          | some x => simp

theorem sum_map_ite_filter {α : Type} (p : α → Bool) (f : α → Nat) :
    ∀ l : List α,
      (l.map (fun i => if p i then 0 else f i)).sum =
        ((l.filter (fun i => !(p i))).map f).sum := by
  intro l
  induction l with
  | nil => rfl
  | cons a t ih =>
      by_cases hp : p a = true
      · simp [hp, ih]
      · simp only [Bool.not_eq_true] at hp
        simp [hp, ih]

theorem zero_scan_eq_spec (b : List memory_entry) : zero_scan b = spec_zero_class b := by
  induction b with
  | nil => rfl
  | cons e rest ih =>
      by_cases h1 : (e.type = .mallocE ∨ e.type = .callocE) ∧ e.size = 0
      · rw [zero_scan, if_pos h1]
        have hfz : first_zero_op (e :: rest) = some e := by
          rw [first_zero_op, List.find?_cons_of_pos]
          refine decide_eq_true ?_
          exact ⟨by rcases h1.1 with h | h <;> simp [h], h1.2⟩
        have hnr : ¬ e.type = .reallocE := by
          rcases h1.1 with h | h <;> simp [h]
        rw [spec_zero_class, hfz]
        show ZeroKind.zalloc =
          if e.type = .reallocE then ZeroKind.zrealloc else ZeroKind.zalloc
        rw [if_neg hnr]
      · by_cases h2 : e.type = .reallocE ∧ e.size = 0
        · have hfz : first_zero_op (e :: rest) = some e := by
            rw [first_zero_op, List.find?_cons_of_pos]
            refine decide_eq_true ?_
            exact ⟨by simp [h2.1], h2.2⟩
          rw [zero_scan, if_neg h1, if_pos h2, spec_zero_class, hfz]
          show ZeroKind.zrealloc =
            if e.type = .reallocE then ZeroKind.zrealloc else ZeroKind.zalloc
          rw [if_pos h2.1]
        · have hpred : ¬ ((e.type = .mallocE ∨ e.type = .callocE ∨ e.type = .reallocE) ∧
              e.size = 0) := by
            rintro ⟨ht, hs⟩
            rcases ht with h | h | h
            · exact h1 ⟨Or.inl h, hs⟩
            · exact h1 ⟨Or.inr h, hs⟩
            · exact h2 ⟨h, hs⟩
          have hfz : first_zero_op (e :: rest) = first_zero_op rest := by
            rw [first_zero_op, first_zero_op, List.find?_cons_of_neg]
            simpa using hpred
          rw [zero_scan, if_neg h1, if_neg h2, ih, spec_zero_class, spec_zero_class, hfz]

theorem zero_scan_map_new_ptr (g : memory_entry → Addr) :
    ∀ b : List memory_entry,
      zero_scan (b.map (fun e => { e with new_ptr := g e })) = zero_scan b := by
  intro b
  induction b with
  | nil => rfl
  | cons e rest ih =>
      show (if (e.type = .mallocE ∨ e.type = .callocE) ∧ e.size = 0 then ZeroKind.zalloc
        else if e.type = .reallocE ∧ e.size = 0 then ZeroKind.zrealloc
        else zero_scan (rest.map (fun e => { e with new_ptr := g e }))) = zero_scan (e :: rest)
      rw [zero_scan]
      by_cases h1 : (e.type = .mallocE ∨ e.type = .callocE) ∧ e.size = 0
      · rw [if_pos h1, if_pos h1]
      · rw [if_neg h1, if_neg h1]
        by_cases h2 : e.type = .reallocE ∧ e.size = 0
        · rw [if_pos h2, if_pos h2]
        · rw [if_neg h2, if_neg h2, ih]

theorem reachable_inv {s : checker_status} (h : Reachable s) : Inv s := by
  induction h with
  | init => exact inv_init
  | mallocR ptr size f l _ ih => exact inv_malloc ih ptr size f l
  | callocR ptr nitems size f l _ ih => exact inv_calloc ih ptr nitems size f l
  | reallocR new_ptr ptr size f l _ ih => exact inv_realloc ih new_ptr ptr size f l
  | freeR ptr f l _ ih => exact inv_free ih ptr f l

/-! ## Claim theorems -/

/-- Claim C1: the failed-operations pass is claimed to count a Resize event
as failed iff its requested size is positive and its new address is null,
regardless of bucket.  The code disagrees twice: after a successful 8-byte
allocation and a *successful* resize to 16 bytes (`state_C1`) it reports one
failed resize although no Resize event has a null new address; and after a
failed `resize(null, 20)` (`state_C1b`) it reports zero failed resizes
although bucket 0 holds a Resize event with positive size and null new
address. -/
theorem C1_failed_pass_bug :
    (find_failed_re_allocs state_C1).2.2 = 1 ∧
    (state_C1.reallocs.filter (fun e => e.size ≠ 0 ∧ e.new_ptr = 0)).length = 0 ∧
    (state_C1.allocs.filter (fun e => e.size ≠ 0 ∧ e.new_ptr = 0)).length = 0 ∧
    (find_failed_re_allocs state_C1).2.1 = 0 ∧
    (find_failed_re_allocs state_C1b).2.2 = 0 ∧
    (state_C1b.reallocs.filter (fun e => e.size ≠ 0 ∧ e.new_ptr = 0)).length = 1 := by
  decide

/-- Claim C2: `release(null)` and `resize(null, n)` are recorded once each
in bucket 0 and never crash the tracker (the shims are total), but the
"null-argument anomaly" counters of the generated report are hard-wired to
`(0, 0)` — the pass is a TODO in the source — so neither call is counted in
the report. -/
theorem C2_null_pass_unimplemented :
    report_null_counts state_C2 = (0, 0) ∧
    ((state_C2.entry_lookup.getD 0 []).filter
      (fun e => e.type = .freeE ∧ e.old_ptr = 0)).length = 1 ∧
    ((state_C2.entry_lookup.getD 0 []).filter
      (fun e => e.type = .reallocE ∧ e.old_ptr = 0)).length = 1 ∧
    (∀ os f l, (checked_free_api os 0 f l).isSome = true) ∧
    (∀ os np n f l, (checked_realloc_api os np 0 n f l).isSome = true) := by
  refine ⟨rfl, by decide, by decide, ?_, ?_⟩
  · intro os f l; rfl
  · intro os np n f l; rfl

/-- Claim C3: `zero_allocate(count, size, ...)` is claimed to delegate to
the real zero-initialize-allocate primitive with that count and element
size.  The source instead issues `malloc(size)` (line 313): at
`count = 10, size = 4` the issued primitive call is `malloc(4)` — 4
uninitialized bytes — not `calloc(10, 4)` — 40 zero-initialized bytes. -/
theorem C3_calloc_delegation_bug :
    checked_calloc_delegation 10 4 = PrimCall.mallocP 4 ∧
    spec_zero_allocate_delegation 10 4 = PrimCall.callocP 10 4 ∧
    checked_calloc_delegation 10 4 ≠ spec_zero_allocate_delegation 10 4 ∧
    prim_bytes (checked_calloc_delegation 10 4) = 4 ∧
    prim_bytes (spec_zero_allocate_delegation 10 4) = 40 ∧
    prim_zeroed (checked_calloc_delegation 10 4) = false ∧
    prim_zeroed (spec_zero_allocate_delegation 10 4) = true := by
  decide

/-- Claim C4 counterexample: after a successful 8-byte allocation and a
failed resize to 100 bytes, the leak pass lists block 1 with 100 bytes —
the requested size of the failed resize, the last entry of the history —
although the block's last successful size-changing event has size 8. -/
theorem C4_leak_size_cex :
    (find_lost_blocks state_C4).1 = [1] ∧
    (find_lost_blocks state_C4).2.2 = 100 ∧
    last_successful_size (state_C4.entry_lookup.getD 1 []) = 8 ∧
    (100 : Nat) ≠ 8 := by
  decide

/-- Claim C4 (amended): for every ledger, the leak pass lists exactly the
ids ≥ 1 whose history contains no Release event, the block count is the
length of that list, and the memory-lost total is the sum over the listed
blocks of the size recorded by the *last entry* of each history (not the
last successful size-changing event). -/
theorem C4_leak_pass_blockwise (s : checker_status) :
    (find_lost_blocks s).1 =
      ((List.range s.entry_lookup.length).drop 1).filter
        (fun i => !has_release (s.entry_lookup.getD i [])) ∧
    (find_lost_blocks s).2.1 = (find_lost_blocks s).1.length ∧
    (find_lost_blocks s).2.2 =
      (((find_lost_blocks s).1).map
        (fun i => last_entry_size (s.entry_lookup.getD i []))).sum := by
  have hfst : ∀ b : List memory_entry, (lost_scan b).1 = has_release b :=
    fun b => lost_scan_aux_fst b 0
  have hpred : (fun i => !(lost_scan (s.entry_lookup.getD i [])).1)
      = (fun i => !has_release (s.entry_lookup.getD i [])) := by
    funext i
    rw [hfst]
  refine ⟨?_, rfl, ?_⟩
  · simp only [find_lost_blocks]
    rw [hpred]
  · simp only [find_lost_blocks]
    rw [sum_map_ite_filter (fun i => (lost_scan (s.entry_lookup.getD i [])).1)
      (fun i => (lost_scan (s.entry_lookup.getD i [])).2)]
    apply congrArg List.sum
    apply List.map_congr_left
    intro i hi
    have hmem := (List.mem_filter.1 hi).2
    simp only [Bool.not_eq_eq_eq_not, Bool.not_true] at hmem
    rw [hfst] at hmem
    exact lost_scan_aux_snd _ hmem 0

/-- Claim C5 counterexample: two `allocate(0)` calls that both return null
land in bucket 0; the zero-size pass counts that bucket once, so it
reports one zero-sized allocation for two zero-size allocate calls. -/
theorem C5_zero_count_cex :
    (find_zero_re_allocs state_C5).2.2.1 = 1 ∧
    (state_C5.allocs.filter (fun e => e.size = 0)).length = 2 := by
  decide

/-- Claim C5 (amended): the zero-size pass counts each block at most once,
not each call: a block is counted as a zero-sized allocation when the first
zero-size allocate/resize event in its history is an Allocate/ZeroAllocate,
and as a zero-sized resize when that first event is a Resize; the
classification never inspects the returned address, so null and non-null
returns are treated alike. -/
theorem C5_zero_pass_blockwise (s : checker_status) :
    (find_zero_re_allocs s).2.2.1 =
      ((List.range s.entry_lookup.length).filter
        (fun i => spec_zero_class (s.entry_lookup.getD i []) = ZeroKind.zalloc)).length ∧
    (find_zero_re_allocs s).2.2.2 =
      ((List.range s.entry_lookup.length).filter
        (fun i => spec_zero_class (s.entry_lookup.getD i []) = ZeroKind.zrealloc)).length ∧
    (∀ g : memory_entry → Addr, ∀ b : List memory_entry,
      zero_scan (b.map (fun e => { e with new_ptr := g e })) = zero_scan b) := by
  have ha : (fun i => decide (zero_scan (s.entry_lookup.getD i []) = ZeroKind.zalloc))
      = (fun i => decide (spec_zero_class (s.entry_lookup.getD i []) = ZeroKind.zalloc)) := by
    funext i
    rw [zero_scan_eq_spec]
  have hr : (fun i => decide (zero_scan (s.entry_lookup.getD i []) = ZeroKind.zrealloc))
      = (fun i => decide (spec_zero_class (s.entry_lookup.getD i []) = ZeroKind.zrealloc)) := by
    funext i
    rw [zero_scan_eq_spec]
  refine ⟨?_, ?_, fun g b => zero_scan_map_new_ptr g b⟩
  · simp only [find_zero_re_allocs]
    rw [ha]
  · simp only [find_zero_re_allocs]
    rw [hr]

/-- Claim C6: an id is minted exactly once, only at a successful
allocation.  (i) A failed allocate appends its event to bucket 0 and leaves
the counter and the pointer table untouched; (ii) a successful allocate
mints exactly the current counter — an id no stored event carries — and
bumps the counter (likewise for zero-allocate); (iii) a resize never
changes the counter and never grows the pointer table, a null or unknown
previous address resolves to bucket 0; (iv) a successful resize of a real
block keeps the block's id: the event appended to the block's history
carries the same id and the pointer table changes only at that id's slot. -/
theorem C6_id_minting :
    (∀ (s : checker_status) (sz : Nat) (f : String) (l : Int), Reachable s →
      (checked_malloc s 0 sz f l).id_counter = s.id_counter ∧
      (checked_malloc s 0 sz f l).pointers = s.pointers ∧
      (checked_malloc s 0 sz f l).entry_lookup.getD 0 [] =
        s.entry_lookup.getD 0 [] ++ [create_memory_entry .mallocE 0 0 0 sz f l]) ∧
    (∀ (s : checker_status) (p : Addr) (sz : Nat) (f : String) (l : Int),
      Reachable s → p ≠ 0 →
      (checked_malloc s p sz f l).id_counter = s.id_counter + 1 ∧
      (checked_malloc s p sz f l).entry_lookup.getD s.id_counter [] =
        [create_memory_entry .mallocE s.id_counter 0 p sz f l] ∧
      (∀ b ∈ s.entry_lookup, ∀ e ∈ b, e.id ≠ s.id_counter)) ∧
    (∀ (s : checker_status) (p : Addr) (n sz : Nat) (f : String) (l : Int),
      Reachable s → p ≠ 0 →
      (checked_calloc s p n sz f l).id_counter = s.id_counter + 1 ∧
      (checked_calloc s p n sz f l).entry_lookup.getD s.id_counter [] =
        [create_memory_entry .callocE s.id_counter 0 p (n * sz) f l]) ∧
    (∀ (s : checker_status) (n sz : Nat) (f : String) (l : Int),
      (checked_calloc s 0 n sz f l).id_counter = s.id_counter ∧
      (checked_calloc s 0 n sz f l).pointers = s.pointers) ∧
    (∀ (s : checker_status) (np p : Addr) (sz : Nat) (f : String) (l : Int),
      (checked_realloc s np p sz f l).id_counter = s.id_counter ∧
      (checked_realloc s np p sz f l).pointers.length = s.pointers.length) ∧
    (∀ s : checker_status, Reachable s → find_id s 0 = 0) ∧
    (∀ (s : checker_status) (p : Addr), p ∉ s.pointers → find_id s p = 0) ∧
    (∀ (s : checker_status) (np : Addr) (sz : Nat) (f : String) (l : Int),
      Reachable s →
      (checked_realloc s np 0 sz f l).entry_lookup.getD 0 [] =
        s.entry_lookup.getD 0 [] ++ [create_memory_entry .reallocE 0 0 np sz f l]) ∧
    (∀ (s : checker_status) (np p : Addr) (sz : Nat) (f : String) (l : Int),
      Reachable s → find_id s p ≠ 0 → np ≠ 0 →
      (checked_realloc s np p sz f l).pointers = s.pointers.set (find_id s p) np ∧
      (checked_realloc s np p sz f l).entry_lookup.getD (find_id s p) [] =
        s.entry_lookup.getD (find_id s p) [] ++
          [create_memory_entry .reallocE (find_id s p) p np sz f l]) := by
  refine ⟨?_, ?_, ?_, ?_, ?_, ?_, ?_, ?_, ?_⟩
  · intro s sz f l hre
    have h := reachable_inv hre
    have h0 : 0 < s.entry_lookup.length := by rw [h.lc]; exact h.pos
    refine ⟨rfl, rfl, ?_⟩
    rw [checked_malloc, if_pos rfl]
    exact getD_appendAt_self _ h0
  · intro s p sz f l hre hp
    have h := reachable_inv hre
    have hcnt : s.entry_lookup.length = s.id_counter := h.lc
    refine ⟨?_, ?_, ?_⟩
    · rw [checked_malloc, if_neg hp]
    · rw [checked_malloc, if_neg hp]
      show (appendAt (s.entry_lookup ++ [[]]) s.id_counter _).getD s.id_counter [] = _
      rw [getD_appendAt_self _ (by simp [hcnt])]
      have hgd : (s.entry_lookup ++ [[]]).getD s.id_counter [] = ([] : List memory_entry) := by
        rw [List.getD_eq_getElem?_getD, ← hcnt]
        simp
      rw [hgd]
      rfl
    · intro b hb e he heq
      exact absurd heq (Nat.ne_of_lt (h.events b hb e he))
  · intro s p n sz f l hre hp
    have h := reachable_inv hre
    have hcnt : s.entry_lookup.length = s.id_counter := h.lc
    refine ⟨?_, ?_⟩
    · rw [checked_calloc, if_neg hp]
    · rw [checked_calloc, if_neg hp]
      show (appendAt (s.entry_lookup ++ [[]]) s.id_counter _).getD s.id_counter [] = _
      rw [getD_appendAt_self _ (by simp [hcnt])]
      have hgd : (s.entry_lookup ++ [[]]).getD s.id_counter [] = ([] : List memory_entry) := by
        rw [List.getD_eq_getElem?_getD, ← hcnt]
        simp
      rw [hgd]
      rfl
  · intro s n sz f l
    rw [checked_calloc, if_pos rfl]
    exact ⟨rfl, rfl⟩
  · intro s np p sz f l
    refine ⟨rfl, ?_⟩
    simp only [checked_realloc]
    split
    · rw [List.length_set]
    · rfl
  · intro s hre
    exact find_id_null (reachable_inv hre).slot0
  · intro s p hp
    exact find_id_not_mem hp
  · intro s np sz f l hre
    have h := reachable_inv hre
    have h0 : 0 < s.entry_lookup.length := by rw [h.lc]; exact h.pos
    have hf0 : find_id s 0 = 0 := find_id_null h.slot0
    show (appendAt s.entry_lookup (find_id s 0) _).getD 0 [] = _
    rw [hf0]
    exact getD_appendAt_self _ h0
  · intro s np p sz f l hre hid hnp
    have h := reachable_inv hre
    have hplen : 1 ≤ s.pointers.length := by rw [h.pc]; exact h.pos
    have hlk : find_id s p < s.entry_lookup.length := by
      rw [h.lc, ← h.pc]
      exact find_id_lt hplen p
    constructor
    · show (if find_id s p ≠ 0 ∧ np ≠ 0 then s.pointers.set (find_id s p) np
        else s.pointers) = s.pointers.set (find_id s p) np
      rw [if_pos ⟨hid, hnp⟩]
    · show (appendAt s.entry_lookup (find_id s p) _).getD (find_id s p) [] = _
      exact getD_appendAt_self _ hlk

/-- Claim C7: a resize whose wrapped call returns null leaves the pointer
table untouched — every address, in particular the old one, still resolves
to the same block id — and modifies no bucket other than the resized
block's own. -/
theorem C7_failed_resize_frame (s : checker_status) (p : Addr) (sz : Nat)
    (f : String) (l : Int) :
    (checked_realloc s 0 p sz f l).pointers = s.pointers ∧
    (∀ q : Addr, find_id (checked_realloc s 0 p sz f l) q = find_id s q) ∧
    (∀ j : Nat, j ≠ find_id s p →
      (checked_realloc s 0 p sz f l).entry_lookup.getD j [] =
        s.entry_lookup.getD j []) := by
  have hpt : (checked_realloc s 0 p sz f l).pointers = s.pointers := by
    show (if find_id s p ≠ 0 ∧ (0 : Addr) ≠ 0 then _ else s.pointers) = s.pointers
    rw [if_neg]
    rintro ⟨-, h⟩
    exact h rfl
  refine ⟨hpt, ?_, ?_⟩
  · intro q
    rw [find_id, hpt]
    rfl
  · intro j hj
    show (appendAt s.entry_lookup (find_id s p) _).getD j [] = _
    exact getD_appendAt_ne _ j (fun hh => hj hh.symm)

/-- Witness for C6 at concrete inputs: a failed allocate from the fresh
ledger keeps the counter, a successful one bumps it, null and unknown
addresses resolve to bucket 0, and a successful resize moves only the
block's pointer slot. -/
theorem C6_id_minting_witness :
    (checked_malloc init_state 0 4 "w" 1).id_counter = init_state.id_counter ∧
    (checked_malloc init_state 1 4 "w" 1).id_counter = init_state.id_counter + 1 ∧
    find_id init_state 0 = 0 ∧
    find_id init_state 7 = 0 ∧
    (checked_realloc state_w 2 1 6 "w" 2).pointers =
      state_w.pointers.set (find_id state_w 1) 2 :=
  ⟨(C6_id_minting.1 init_state 4 "w" 1 Reachable.init).1,
   (C6_id_minting.2.1 init_state 1 4 "w" 1 Reachable.init (by decide)).1,
   C6_id_minting.2.2.2.2.2.1 init_state Reachable.init,
   C6_id_minting.2.2.2.2.2.2.1 init_state 7 (by decide),
   (C6_id_minting.2.2.2.2.2.2.2.2 state_w 2 1 6 "w" 2
     (Reachable.mallocR 1 4 "w" 1 Reachable.init) (by decide) (by decide)).1⟩

/-- Witness for C7 at a concrete input: a failed resize of the one live
block leaves the pointer table, the resolution of its address, and bucket 0
unchanged. -/
theorem C7_failed_resize_frame_witness :
    (checked_realloc state_w 0 1 6 "w" 2).pointers = state_w.pointers ∧
    find_id (checked_realloc state_w 0 1 6 "w" 2) 1 = find_id state_w 1 ∧
    (checked_realloc state_w 0 1 6 "w" 2).entry_lookup.getD 0 [] =
      state_w.entry_lookup.getD 0 [] :=
  ⟨(C7_failed_resize_frame state_w 1 6 "w" 2).1,
   (C7_failed_resize_frame state_w 1 6 "w" 2).2.1 1,
   (C7_failed_resize_frame state_w 1 6 "w" 2).2.2 0 (by decide)⟩

/-- Claim C9: teardown on an absent ledger dereferences the null state —
`cleanup_alloc_checks` is the one public entry point with no lazy
initialization, so calling it before any other call, or twice in a row,
hits its error branch; every other public entry point initializes lazily
from `none` and never fails. -/
theorem C9_cleanup_null_deref :
    cleanup_alloc_checks none = Except.error () ∧
    (∀ s : checker_status, cleanup_alloc_checks (some s) = Except.ok none) ∧
    (∀ (ptr : Addr) (sz : Nat) (f : String) (l : Int),
      checked_malloc_api none ptr sz f l = some (checked_malloc init_state ptr sz f l)) ∧
    (∀ (ptr : Addr) (n sz : Nat) (f : String) (l : Int),
      checked_calloc_api none ptr n sz f l = some (checked_calloc init_state ptr n sz f l)) ∧
    (∀ (np p : Addr) (sz : Nat) (f : String) (l : Int),
      checked_realloc_api none np p sz f l = some (checked_realloc init_state np p sz f l)) ∧
    (∀ (p : Addr) (f : String) (l : Int),
      checked_free_api none p f l = some (checked_free init_state p f l)) ∧
    report_alloc_checks_api none = some init_state :=
  ⟨rfl, fun _ => rfl, fun _ _ _ _ => rfl, fun _ _ _ _ _ => rfl,
   fun _ _ _ _ _ => rfl, fun _ _ _ => rfl, rfl⟩

/-- Claim C10: on every reachable ledger the pointer table and the history
table have exactly `id_counter` slots, slot 0 of the pointer table holds
the null address, and every stored event's id is strictly below the
counter — so every `history[id]` index the shims and passes use is in
bounds. -/
theorem C10_ledger_invariants (s : checker_status) (h : Reachable s) :
    s.pointers.length = s.id_counter ∧
    s.entry_lookup.length = s.id_counter ∧
    s.pointers.head? = some 0 ∧
    (∀ b ∈ s.entry_lookup, ∀ e ∈ b, e.id < s.id_counter) ∧
    (∀ e ∈ s.allocs ++ s.reallocs ++ s.frees, e.id < s.id_counter) := by
  have hi := reachable_inv h
  refine ⟨hi.pc, hi.lc, ?_, hi.events, hi.chron⟩
  obtain ⟨rest, hr⟩ := hi.slot0
  rw [hr]
  rfl

/-- Witness for C10 on the ledger reached by one successful allocation. -/
theorem C10_ledger_invariants_witness :
    state_w.pointers.length = state_w.id_counter ∧
    state_w.entry_lookup.length = state_w.id_counter ∧
    state_w.pointers.head? = some 0 ∧
    (∀ b ∈ state_w.entry_lookup, ∀ e ∈ b, e.id < state_w.id_counter) ∧
    (∀ e ∈ state_w.allocs ++ state_w.reallocs ++ state_w.frees,
      e.id < state_w.id_counter) :=
  C10_ledger_invariants state_w (Reachable.mallocR 1 4 "w" 1 Reachable.init)

/-! ## The lookup cost (claim C8) -/

theorem reachable_mallocTrace (n : Nat) : Reachable (mallocTrace n) := by
  induction n with
  | zero => exact Reachable.init
  | succ n ih => exact Reachable.mallocR (n + 1) 1 "trace" 1 ih

theorem pointers_mallocTrace (n : Nat) :
    (mallocTrace n).pointers = List.range (n + 1) := by
  induction n with
  | zero => rfl
  | succ n ih =>
      show (checked_malloc (mallocTrace n) (n + 1) 1 "trace" 1).pointers = _
      rw [checked_malloc, if_neg (Nat.succ_ne_zero n)]
      show (mallocTrace n).pointers ++ [n + 1] = _
      rw [ih, ← List.range_succ]

theorem steps_concat {p : Addr} :
    ∀ {l : List Addr}, p ∉ l → find_id_steps_aux (l ++ [p]) p = l.length + 1 := by
  intro l
  induction l with
  | nil => intro _; simp [find_id_steps_aux]
  | cons q rest ih =>
      intro h
      have hq : ¬ q = p := fun hqp => h (hqp ▸ List.mem_cons_self q rest)
      show find_id_steps_aux (q :: (rest ++ [p])) p = rest.length + 1 + 1
      rw [find_id_steps_aux, if_neg hq, ih (fun hm => h (List.mem_cons_of_mem q hm))]
      omega

theorem steps_mallocTrace (n : Nat) :
    find_id_steps (mallocTrace n) n = n + 1 := by
  rw [find_id_steps, pointers_mallocTrace, List.range_succ]
  have h := steps_concat (l := List.range n) (p := n) (by simp)
  rw [List.length_range] at h
  exact h

theorem sq_le_four_pow (c : Nat) : (c + 1) ^ 2 ≤ 4 ^ c := by
  induction c with
  | zero => decide
  | succ c ih =>
      have h4 : (4 : Nat) ^ (c + 1) = 4 * 4 ^ c := by ring
      rw [h4]
      nlinarith [mul_le_mul_left' ih 4, sq_nonneg c, Nat.zero_le c]

theorem linear_beats_log (c : Nat) :
    c * (Nat.log 2 (2 ^ (2 * c + 2)) + 1) < 2 ^ (2 * c + 2) := by
  rw [Nat.log_pow (by norm_num)]
  have h1 : (2 : Nat) ^ (2 * c + 2) = 4 ^ c * 4 := by
    rw [pow_add, pow_mul]
    norm_num
  rw [h1]
  have h2 := sq_le_four_pow c
  nlinarith [h2]

/-- Claim C8 counterexample: `find_id` is not O(1)/O(log n).  For any
candidate constant `c`, the reachable ledger with `2^(2c+2)` pointer slots
(every allocation succeeding at a fresh address, a legal allocator
behaviour) makes the lookup of the most recent address cost the full table
length, exceeding `c * (log₂ n + 1)`. -/
theorem C8_lookup_not_sublinear : ¬ lookup_cost_bounded := by
  rintro ⟨c, hc⟩
  have hm : 0 < 2 ^ (2 * c + 2) := Nat.pos_pow_of_pos _ (by norm_num)
  have hmp : (2 ^ (2 * c + 2) - 1) + 1 = 2 ^ (2 * c + 2) := Nat.succ_pred_eq_of_pos hm
  have h1 := hc (mallocTrace (2 ^ (2 * c + 2) - 1))
    (reachable_mallocTrace _) (2 ^ (2 * c + 2) - 1)
  rw [steps_mallocTrace, pointers_mallocTrace, List.length_range, hmp] at h1
  exact Nat.lt_irrefl _ (Nat.lt_of_le_of_lt h1 (linear_beats_log c))

theorem length_takeWhile_lt_of_mem {p : Addr} :
    ∀ {l : List Addr}, p ∈ l →
      (l.takeWhile (fun q => !(q = p))).length < l.length := by
  intro l
  induction l with
  | nil => intro h; cases h
  | cons q rest ih =>
      intro h
      by_cases hq : q = p
      · subst hq
        rw [List.takeWhile_cons]
        simp
      · rw [List.takeWhile_cons]
        have hqp : (!decide (q = p)) = true := by simp [hq]
        rw [hqp, if_pos rfl]
        have hm : p ∈ rest := by
          rcases List.mem_cons.1 h with hcon | hcon
          · exact absurd hcon.symm hq
          · exact hcon
        simp only [List.length_cons]
        exact Nat.succ_lt_succ (ih hm)

theorem find_id_steps_aux_eq (p : Addr) :
    ∀ l : List Addr,
      find_id_steps_aux l p =
        if p ∈ l then (l.takeWhile (fun q => !(q = p))).length + 1 else l.length := by
  intro l
  induction l with
  | nil => simp [find_id_steps_aux]
  | cons q rest ih =>
      by_cases hq : q = p
      · subst hq
        rw [find_id_steps_aux, if_pos rfl, if_pos (List.mem_cons_self q rest),
          List.takeWhile_cons]
        simp
      · rw [find_id_steps_aux, if_neg hq, ih]
        by_cases hm : p ∈ rest
        · rw [if_pos hm, if_pos (List.mem_cons_of_mem q hm), List.takeWhile_cons]
          have : (!decide (q = p)) = true := by simp [hq]
          rw [this]
          simp only [if_true, List.length_cons]
          omega
        · have hnm : p ∉ q :: rest := by
            intro hcon
            rcases List.mem_cons.1 hcon with hcon | hcon
            · exact hq hcon.symm
            · exact hm hcon
          rw [if_neg hm, if_neg hnm, List.length_cons]
          omega

theorem find_id_aux_eq (p : Addr) :
    ∀ (l : List Addr) (i : Nat),
      find_id_aux l p i =
        if p ∈ l then i + (l.takeWhile (fun q => !(q = p))).length else 0 := by
  intro l
  induction l with
  | nil => intro i; simp [find_id_aux]
  | cons q rest ih =>
      intro i
      by_cases hq : q = p
      · subst hq
        rw [find_id_aux, if_pos rfl, if_pos (List.mem_cons_self q rest),
          List.takeWhile_cons]
        simp
      · rw [find_id_aux, if_neg hq, ih (i + 1)]
        by_cases hm : p ∈ rest
        · rw [if_pos hm, if_pos (List.mem_cons_of_mem q hm), List.takeWhile_cons]
          have : (!decide (q = p)) = true := by simp [hq]
          rw [this]
          simp only [if_true, List.length_cons]
          omega
        · have hnm : p ∉ q :: rest := by
            intro hcon
            rcases List.mem_cons.1 hcon with hcon | hcon
            · exact hq hcon.symm
            · exact hm hcon
          rw [if_neg hm, if_neg hnm]

/-- Claim C8 (amended): `find_id` is a linear scan over the pointer table,
not a direct address-keyed map.  Its result is the index of the first
matching slot (0 when the address is absent), its cost in comparisons is
that index plus one (the full table length when absent), hence at most —
and in the worst case exactly — the number of tracked pointer slots. -/
theorem C8_lookup_linear_scan :
    (∀ (s : checker_status) (p : Addr),
      find_id s p =
        (if p ∈ s.pointers
          then (s.pointers.takeWhile (fun q => !(q = p))).length
          else 0) ∧
      find_id_steps s p =
        (if p ∈ s.pointers
          then (s.pointers.takeWhile (fun q => !(q = p))).length + 1
          else s.pointers.length) ∧
      find_id_steps s p ≤ s.pointers.length) ∧
    (∀ n : Nat,
      Reachable (mallocTrace n) ∧
      (mallocTrace n).pointers.length = n + 1 ∧
      find_id_steps (mallocTrace n) n = n + 1) := by
  constructor
  · intro s p
    have haux := find_id_aux_eq p s.pointers 0
    have hsteps := find_id_steps_aux_eq p s.pointers
    refine ⟨?_, hsteps, ?_⟩
    · rw [find_id, haux]
      split
      · rw [Nat.zero_add]
      · rfl
    · rw [find_id_steps, hsteps]
      split
      · next hmem =>
          have hlt := length_takeWhile_lt_of_mem hmem
          omega
      · exact le_refl _
  · intro n
    exact ⟨reachable_mallocTrace n, by rw [pointers_mallocTrace, List.length_range],
      steps_mallocTrace n⟩

end AllocCheck
